import Mathlib

/-!
# Event controller: a relay from informer notifications to etcd

Shallow embedding of `main.go`.

* The channel `queue := make(chan string, 50000)` is a list of keys, oldest
  first, together with its capacity; a send on a full channel and a receive
  on an empty one do not complete, which the step functions report as `none`.
* The informer's indexer (`GetByKey`), `cache.MetaNamespaceKeyFunc`,
  `json.Marshal` and the etcd client's `Put` are library code or remote
  services.  They are fields of `Env`; the two that talk to mutable outside
  state (`GetByKey`, `Put`) take the number of keys received from the queue so
  far, so that their answers may change from one worker cycle to the next.
* Everything observable that the program does is recorded in the state: the
  calls of `Put` in order, and the lines printed through the logger.
-/

namespace EventController

/-! ## Configuration (`init`) -/

/-- The value of `*threadWorkNum` after `init`: lines 70-72.  The counter of
`processEvents` stays below this value, so no machine integer wraps and `Int`
stands for Go's `int`. -/
def threadWorkNum (worknum : Int) : Int :=
  if worknum = 0 then 4 else worknum

/-- The value of `*etcdKeyPrefix` after `init`: lines 74-76. -/
def etcdKeyPrefix (flagValue : String) : String :=
  if flagValue = "" then "/registry/events" else flagValue

/-- Capacity of the channel made at line 83. -/
def queueCap : Nat := 50000

/-! ## Collaborators -/

/-- The three results of `Indexer.GetByKey`. -/
structure Lookup (Obj : Type) where
  item : Obj
  exsit : Bool
  err : Option String

/-- Library functions and remote services the controller calls.  `Obj` is the
type of the values handed around as `interface{}`. -/
structure Env (Obj : Type) where
  /-- The call `c.Informer.GetIndexer().GetByKey(key)`, at a given time. -/
  GetByKey : Nat → String → Lookup Obj
  /-- Whether the type assertion `ev.(*corev1.Event)` succeeds. -/
  isEvent : Obj → Bool
  /-- The call `cache.MetaNamespaceKeyFunc(obj)`: a key or an error. -/
  MetaNamespaceKeyFunc : Obj → Except String String
  /-- The call `json.Marshal(event)`: the bytes or an error. -/
  Marshal : Obj → Except String String
  /-- The call `etcdClient.Put(ctx, key, val)`, at a given time: its error. -/
  Put : Nat → String → String → Option String

/-! ## State -/

/-- The queue and the trace of what the program has done. -/
structure State where
  /-- Buffered keys of `c.Queue`, the next one to be received first. -/
  Queue : List String
  /-- Calls `Put(key, val)` issued so far, oldest first. -/
  puts : List (String × String)
  /-- Lines printed with `l.Println` by the handler and the workers. -/
  logs : List String
  /-- Number of keys received from the queue so far. -/
  served : Nat
  /-- Set once a goroutine has panicked (a failed type assertion). -/
  panicked : Bool
deriving DecidableEq, Repr

/-- State at the moment `main` has made the channel. -/
def State.init : State :=
  { Queue := [], puts := [], logs := [], served := 0, panicked := false }

/-! ## Producer: the registered event handlers (lines 87-97) -/

/-- The body of `AddFunc`.  `none`: the send `queue <- key` cannot complete
because the buffer is full, the caller stays suspended and nothing changes. -/
def AddFunc {Obj : Type} (env : Env Obj) (s : State) (obj : Obj) : Option State :=
  match env.MetaNamespaceKeyFunc obj with
  | .error e => some { s with logs := s.logs ++ [e] }
  | .ok key =>
    if s.Queue.length < queueCap then some { s with Queue := s.Queue ++ [key] }
    else none

/-- The struct `cache.ResourceEventHandlerFuncs`: each field may be nil. -/
structure ResourceEventHandlerFuncs (Obj : Type) where
  AddFunc : Option (State → Obj → Option State)
  UpdateFunc : Option (State → Obj → Obj → Option State)
  DeleteFunc : Option (State → Obj → Option State)

/-- The literal passed to `informer.AddEventHandler`: only `AddFunc` is set. -/
def handlers {Obj : Type} (env : Env Obj) : ResourceEventHandlerFuncs Obj :=
  { AddFunc := some (fun s obj => EventController.AddFunc env s obj),
    UpdateFunc := none,
    DeleteFunc := none }

/-- A notification delivered by the informer to its handler. -/
inductive Notification (Obj : Type) where
  | add (obj : Obj)
  | update (oldObj newObj : Obj)
  | delete (obj : Obj)

/-- Dispatch of a notification (`OnAdd`, `OnUpdate`, `OnDelete` of
`ResourceEventHandlerFuncs`): the matching field is called when it is set and
nothing is done otherwise. -/
def ResourceEventHandlerFuncs.notify {Obj : Type} (h : ResourceEventHandlerFuncs Obj)
    (s : State) : Notification Obj → Option State
  | .add obj => match h.AddFunc with
    | some f => f s obj
    | none => some s
  | .update o n => match h.UpdateFunc with
    | some f => f s o n
    | none => some s
  | .delete obj => match h.DeleteFunc with
    | some f => f s obj
    | none => some s

/-! ## Consumer: `runWork` (lines 116-139) -/

/-- The value `string(val)` after `val, _ := json.Marshal(event)`: the bytes,
or the empty string when `Marshal` returned an error (and a nil slice). -/
def marshalled {Obj : Type} (env : Env Obj) (ev : Obj) : String :=
  match env.Marshal ev with
  | .ok v => v
  | .error _ => ""

/-- One iteration of the loop of `runWork`, with `pfx` the value of
`*etcdKeyPrefix`.  `none`: the receive `<-c.Queue` cannot complete because the
queue is empty, the worker stays suspended. -/
def cycle {Obj : Type} (env : Env Obj) (pfx : String) (s : State) : Option State :=
  match s.Queue with
  | [] => none
  | key :: rest =>
    let s1 : State := { s with Queue := rest, served := s.served + 1 }
    let r := env.GetByKey s.served key
    if r.err.isSome || !r.exsit then some s1
    else if !env.isEvent r.item then some { s1 with panicked := true }
    else
      match env.MetaNamespaceKeyFunc r.item with
      | .error e => some { s1 with logs := s1.logs ++ [e] }
      | .ok eventKey =>
        let storeKey := pfx ++ "/" ++ eventKey
        let val := marshalled env r.item
        let s2 : State := { s1 with puts := s1.puts ++ [(storeKey, val)] }
        match env.Put s.served storeKey val with
        | some e => some { s2 with logs := s2.logs ++ [e] }
        | none =>
          some { s2 with logs := s2.logs ++ ["add event to etcd successd: " ++ eventKey] }

/-- The loop of `runWork` run for at most `n` iterations by a single worker:
it stops early only where the worker is suspended on an empty queue or the
process has panicked. -/
def runWork {Obj : Type} (env : Env Obj) (pfx : String) : Nat → State → State
  | 0, s => s
  | n + 1, s =>
    if s.panicked then s
    else match cycle env pfx s with
      | none => s
      | some s' => runWork env pfx n s'

/-! ## `processEvents` (lines 110-114) -/

/-- The loop `for i := 0; i < *threadWorkNum; i++ { go c.runWork(i) }` from a
given `i`: the ids passed to `runWork`, in the order the goroutines start. -/
def processEventsFrom (w i : Int) : List Int :=
  if i < w then i :: processEventsFrom w (i + 1) else []
termination_by (w - i).toNat
decreasing_by omega

/-- The ids of the worker loops started by `processEvents`. -/
def processEvents (w : Int) : List Int := processEventsFrom w 0

/-! ## The relay as a transition system -/

/-- What can happen next in the running program: the informer delivers a
notification to the registered handlers, or a worker runs one iteration of its
loop. -/
inductive Action (Obj : Type) where
  | notify (n : Notification Obj)
  | work

/-- The effect of one action; `none` when the goroutine doing it is suspended
on the channel.  A worker cycle is taken as one action: the receive, the
lookup and the `Put` of one cycle are not interleaved with those of another
worker. -/
def step {Obj : Type} (env : Env Obj) (pfx : String) (s : State) : Action Obj → Option State
  | .notify n => (handlers env).notify s n
  | .work => cycle env pfx s

/-- The program run along a schedule.  An action whose goroutine is suspended
does not happen, and nothing happens once the process has panicked. -/
def exec {Obj : Type} (env : Env Obj) (pfx : String) : List (Action Obj) → State → State
  | [], s => s
  | a :: as, s =>
    if s.panicked then s
    else match step env pfx s a with
      | none => exec env pfx as s
      | some s' => exec env pfx as s'

/-- States the program can be in. -/
inductive Reachable {Obj : Type} (env : Env Obj) (pfx : String) : State → Prop where
  | init : Reachable env pfx State.init
  | step (s s' : State) (a : Action Obj) : Reachable env pfx s → s.panicked = false →
      step env pfx s a = some s' → Reachable env pfx s'

/-- The collaborators `env`, except that the `Put` issued at time `t`
succeeds. -/
def Env.withPutOk {Obj : Type} (env : Env Obj) (t : Nat) : Env Obj :=
  { env with Put := fun i k v => if i = t then none else env.Put i k v }

/-- Two states that differ at most in a prefix of their logs: `la` in the
first is `lb` in the second. -/
def AgreeUpToLogs (la lb : List String) (a b : State) : Prop :=
  a.Queue = b.Queue ∧ a.puts = b.puts ∧ a.served = b.served ∧ a.panicked = b.panicked ∧
    ∃ tail, a.logs = la ++ tail ∧ b.logs = lb ++ tail

/-- The indexer is the cache of the event informer made at line 85, which
stores each event under the key that `cache.MetaNamespaceKeyFunc` gives it:
an item found under a key is an event, and its own key is that key. -/
def Env.Coherent {Obj : Type} (env : Env Obj) : Prop :=
  ∀ (t : Nat) (k : String), (env.GetByKey t k).err = none → (env.GetByKey t k).exsit = true →
    env.isEvent (env.GetByKey t k).item = true ∧
      env.MetaNamespaceKeyFunc (env.GetByKey t k).item = .ok k

/-- The calls of `Put` in the words of the specification, for the keys `ks`
dequeued in this order from time `t` on: `Put(prefix/k, encode(v))` for each
key `k` whose lookup returned a value `v`, nothing for the other keys. -/
def claimedPuts {Obj : Type} (env : Env Obj) (pfx : String) :
    Nat → List String → List (String × String)
  | _, [] => []
  | t, k :: rest =>
    let r := env.GetByKey t k
    if r.err.isSome || !r.exsit then claimedPuts env pfx (t + 1) rest
    else (pfx ++ "/" ++ k, marshalled env r.item) :: claimedPuts env pfx (t + 1) rest

/-! ## A concrete object type for examples -/

/-- The fields of a `corev1.Event` the examples need. -/
structure Event where
  Namespace : String
  Name : String
  Message : String
deriving DecidableEq, Repr

/-- The key `cache.MetaNamespaceKeyFunc` gives an event: `<namespace>/<name>`
when the namespace is not empty and the name alone otherwise, never an
error. -/
def Event.key (e : Event) : Except String String :=
  if e.Namespace ≠ "" then .ok (e.Namespace ++ "/" ++ e.Name)
  else .ok e.Name

/-- Collaborators over `Event`: a lookup that finds `some e` or reports the
key absent, `Event.key` as key function, the given serializer and store. -/
def Env.ofLookup (lookup : Nat → String → Option Event)
    (marshal : Event → Except String String) (put : Nat → Option String) : Env Event :=
  { GetByKey := fun t k =>
      match lookup t k with
      | some e => { item := e, exsit := true, err := none }
      | none => { item := ⟨"", "", ""⟩, exsit := false, err := none },
    isEvent := fun _ => true,
    MetaNamespaceKeyFunc := Event.key,
    Marshal := marshal,
    Put := fun t _ _ => put t }

/-- An indexer holding nothing: every lookup reports the key absent. -/
def emptyEnv : Env Event :=
  Env.ofLookup (fun _ _ => none) (fun e => .ok e.Message) (fun _ => none)

/-- An indexer whose first lookup returns an error and which holds nothing
afterwards. -/
def lookupErrEnv : Env Event :=
  { emptyEnv with
    GetByKey := fun t _ =>
      { item := ⟨"", "", ""⟩, exsit := false,
        err := if t = 0 then some "cache unavailable" else none } }

/-- An indexer holding the event `default/pod-xyz` with payload `P`. -/
def podEnv (P : String) : Env Event :=
  Env.ofLookup (fun _ k => if k = "default/pod-xyz" then some ⟨"default", "pod-xyz", P⟩ else none)
    (fun e => .ok e.Message) (fun _ => none)

/-- The resolver of the concrete scenario: the first lookup finds the event
`default/pod-xyz` with payload `P`, every later one reports the key absent. -/
def scenarioEnv (P : String) : Env Event :=
  Env.ofLookup
    (fun t k => if t = 0 ∧ k = "default/pod-xyz" then some ⟨"default", "pod-xyz", P⟩ else none)
    (fun e => .ok e.Message) (fun _ => none)

/-- An indexer holding `default/a`, which the serializer rejects. -/
def unmarshalableEnv : Env Event :=
  Env.ofLookup (fun _ k => if k = "default/a" then some ⟨"default", "a", "m"⟩ else none)
    (fun _ => .error "json: unsupported value") (fun _ => none)

/-- An indexer holding `default/pod-xyz`, and a store whose first `Put`
fails. -/
def putErrEnv : Env Event :=
  Env.ofLookup (fun _ k => if k = "default/pod-xyz" then some ⟨"default", "pod-xyz", "P"⟩ else none)
    (fun e => .ok e.Message) (fun t => if t = 0 then some "etcdserver: request timed out" else none)

/-- A queue holding the given keys in a program that has done nothing yet. -/
def State.ofQueue (ks : List String) : State :=
  { State.init with Queue := ks }

/-! ## Basic facts about one worker cycle -/

theorem cycle_nil {Obj : Type} (env : Env Obj) (pfx : String) (s : State)
    (hq : s.Queue = []) : cycle env pfx s = none := by
  simp [cycle, hq]

theorem cycle_skip {Obj : Type} (env : Env Obj) (pfx : String) (s : State)
    (key : String) (rest : List String) (hq : s.Queue = key :: rest)
    (hfail : (env.GetByKey s.served key).err ≠ none ∨
      (env.GetByKey s.served key).exsit = false) :
    cycle env pfx s = some { s with Queue := rest, served := s.served + 1 } := by
  unfold cycle
  rw [hq]
  rcases hfail with h | h
  · cases he : (env.GetByKey s.served key).err with
    | none => exact absurd he h
    | some e => simp [he]
  · simp [h]

theorem cycle_put {Obj : Type} (env : Env Obj) (pfx : String) (s : State)
    (key : String) (rest : List String) (eventKey : String)
    (hq : s.Queue = key :: rest)
    (herr : (env.GetByKey s.served key).err = none)
    (hex : (env.GetByKey s.served key).exsit = true)
    (hev : env.isEvent (env.GetByKey s.served key).item = true)
    (hkey : env.MetaNamespaceKeyFunc (env.GetByKey s.served key).item = .ok eventKey) :
    cycle env pfx s = some
      { Queue := rest,
        puts := s.puts ++ [(pfx ++ "/" ++ eventKey,
          marshalled env (env.GetByKey s.served key).item)],
        logs := s.logs ++
          [match env.Put s.served (pfx ++ "/" ++ eventKey)
              (marshalled env (env.GetByKey s.served key).item) with
            | some e => e
            | none => "add event to etcd successd: " ++ eventKey],
        served := s.served + 1,
        panicked := s.panicked } := by
  unfold cycle
  rw [hq]
  simp only [herr, hex, hev, hkey, Option.isSome_none, Bool.not_true, Bool.or_self,
    Bool.false_eq_true, if_false]
  cases env.Put s.served (pfx ++ "/" ++ eventKey)
    (marshalled env (env.GetByKey s.served key).item) <;> rfl

theorem runWork_succ {Obj : Type} (env : Env Obj) (pfx : String) (n : Nat) (s s' : State)
    (hp : s.panicked = false) (hc : cycle env pfx s = some s') :
    runWork env pfx (n + 1) s = runWork env pfx n s' := by
  simp [runWork, hp, hc]

theorem cycle_cons {Obj : Type} (env : Env Obj) (pfx : String)
    (s : State) (key : String) (rest : List String) (hq : s.Queue = key :: rest) :
    ∃ s', cycle env pfx s = some s' ∧ s'.Queue = rest ∧ s'.served = s.served + 1 ∧
      (s'.puts = s.puts ∨ ∃ kv, s'.puts = s.puts ++ [kv]) := by
  unfold cycle
  rw [hq]
  simp only
  split
  · exact ⟨_, rfl, rfl, rfl, Or.inl rfl⟩
  · split
    · exact ⟨_, rfl, rfl, rfl, Or.inl rfl⟩
    · split
      · exact ⟨_, rfl, rfl, rfl, Or.inl rfl⟩
      · split
        · exact ⟨_, rfl, rfl, rfl, Or.inr ⟨_, rfl⟩⟩
        · exact ⟨_, rfl, rfl, rfl, Or.inr ⟨_, rfl⟩⟩

/-! ## Lookup failures -/

/-- C1: when the lookup of the dequeued key returns an error or reports the
key absent, the cycle completes with the trace of `Put` calls unchanged and
the queue equal to its former tail (the key is not put back), and the worker
goes on with the next iteration of its loop. -/
theorem lookup_failure_no_put_no_requeue {Obj : Type} (env : Env Obj) (pfx : String)
    (s : State) (key : String) (rest : List String) (hq : s.Queue = key :: rest)
    (hfail : (env.GetByKey s.served key).err ≠ none ∨
      (env.GetByKey s.served key).exsit = false) :
    ∃ s', cycle env pfx s = some s' ∧ s'.puts = s.puts ∧ s'.Queue = rest ∧
      s'.panicked = s.panicked ∧
      (s.panicked = false → ∀ n, runWork env pfx (n + 1) s = runWork env pfx n s') := by
  refine ⟨_, cycle_skip env pfx s key rest hq hfail, rfl, rfl, rfl, ?_⟩
  intro hp n
  exact runWork_succ env pfx n s _ hp (cycle_skip env pfx s key rest hq hfail)

theorem lookup_failure_no_put_no_requeue_witness :
    ∃ s', cycle emptyEnv "/registry/events"
        (State.ofQueue ["default/a", "default/b"]) = some s' ∧
      s'.puts = [] ∧ s'.Queue = ["default/b"] ∧ s'.panicked = false ∧
      (false = false → ∀ n, runWork emptyEnv "/registry/events" (n + 1)
          (State.ofQueue ["default/a", "default/b"]) =
        runWork emptyEnv "/registry/events" n s') :=
  lookup_failure_no_put_no_requeue emptyEnv "/registry/events"
    (State.ofQueue ["default/a", "default/b"]) "default/a" ["default/b"] rfl
    (Or.inr rfl)

/-- C7 (as stated, refuted): the claim has a log entry written for a failed
lookup.  Here the first lookup returns an error and the second reports the key
absent, and both cycles complete with the log still empty. -/
theorem lookup_failure_log_counterexample :
    (lookupErrEnv.GetByKey 0 "default/a").err = some "cache unavailable" ∧
    (lookupErrEnv.GetByKey 1 "default/b").err = none ∧
    (lookupErrEnv.GetByKey 1 "default/b").exsit = false ∧
    (cycle lookupErrEnv "/registry/events" (State.ofQueue ["default/a", "default/b"])).map
      State.logs = some [] ∧
    (runWork lookupErrEnv "/registry/events" 2 (State.ofQueue ["default/a", "default/b"])).logs
      = [] ∧
    (runWork lookupErrEnv "/registry/events" 2 (State.ofQueue ["default/a", "default/b"])).Queue
      = [] := by
  refine ⟨rfl, rfl, rfl, rfl, rfl, rfl⟩

/-- C7 (amended): when the lookup of the dequeued key returns an error or
reports the key absent, the cycle is abandoned without writing a log entry:
the log after the cycle is the log before it. -/
theorem lookup_failure_silent {Obj : Type} (env : Env Obj) (pfx : String)
    (s : State) (key : String) (rest : List String) (hq : s.Queue = key :: rest)
    (hfail : (env.GetByKey s.served key).err ≠ none ∨
      (env.GetByKey s.served key).exsit = false) :
    ∃ s', cycle env pfx s = some s' ∧ s'.logs = s.logs := by
  exact ⟨_, cycle_skip env pfx s key rest hq hfail, rfl⟩

theorem lookup_failure_silent_witness :
    ∃ s', cycle lookupErrEnv "/registry/events" (State.ofQueue ["default/a"]) = some s' ∧
      s'.logs = (State.ofQueue ["default/a"]).logs :=
  lookup_failure_silent lookupErrEnv "/registry/events" (State.ofQueue ["default/a"])
    "default/a" [] rfl (Or.inl (by simp [lookupErrEnv, State.ofQueue, State.init]))

/-! ## The queue across one cycle -/

/-- C9: a cycle on a non-empty queue completes, whatever the lookup, the key
function and the store answer; afterwards the queue is the former queue
without its head, one more key has been received, and the trace of `Put`
calls is unchanged or longer by exactly one call. -/
theorem cycle_dequeues_head_at_most_one_put {Obj : Type} (env : Env Obj) (pfx : String)
    (s : State) (key : String) (rest : List String) (hq : s.Queue = key :: rest) :
    ∃ s', cycle env pfx s = some s' ∧ s'.Queue = rest ∧ s'.served = s.served + 1 ∧
      (s'.puts = s.puts ∨ ∃ kv, s'.puts = s.puts ++ [kv]) :=
  cycle_cons env pfx s key rest hq

theorem cycle_dequeues_head_at_most_one_put_witness :
    ∃ s', cycle putErrEnv "/registry/events"
        (State.ofQueue ["default/pod-xyz", "default/b"]) = some s' ∧
      s'.Queue = ["default/b"] ∧
      s'.served = (State.ofQueue ["default/pod-xyz", "default/b"]).served + 1 ∧
      (s'.puts = (State.ofQueue ["default/pod-xyz", "default/b"]).puts ∨
        ∃ kv, s'.puts = (State.ofQueue ["default/pod-xyz", "default/b"]).puts ++ [kv]) :=
  cycle_dequeues_head_at_most_one_put putErrEnv "/registry/events"
    (State.ofQueue ["default/pod-xyz", "default/b"]) "default/pod-xyz" ["default/b"] rfl

/-! ## The call of `Put` -/

theorem podEnv_coherent (P : String) : (podEnv P).Coherent := by
  intro t k _ hex
  by_cases hk : k = "default/pod-xyz"
  · subst hk
    exact ⟨rfl, rfl⟩
  · simp [podEnv, Env.ofLookup, hk] at hex

theorem scenarioEnv_coherent (P : String) : (scenarioEnv P).Coherent := by
  intro t k _ hex
  by_cases hk : t = 0 ∧ k = "default/pod-xyz"
  · obtain ⟨ht, hk⟩ := hk
    subst ht
    subst hk
    exact ⟨rfl, rfl⟩
  · simp [scenarioEnv, Env.ofLookup, hk] at hex

/-- C2: with the informer's cache as indexer, when the lookup of the dequeued
key finds an object, the cycle issues exactly one `Put`, with store key
`pfx ++ "/" ++ key` and with value the string of the bytes `json.Marshal`
returned for that object, which is its serialization `v` whenever `Marshal`
returns `v`. -/
theorem store_key_is_prefix_slash_key {Obj : Type} (env : Env Obj) (pfx : String)
    (s : State) (key : String) (rest : List String)
    (hc : env.Coherent)
    (hq : s.Queue = key :: rest)
    (herr : (env.GetByKey s.served key).err = none)
    (hex : (env.GetByKey s.served key).exsit = true) :
    ∃ s', cycle env pfx s = some s' ∧
      s'.puts = s.puts ++
        [(pfx ++ "/" ++ key, marshalled env (env.GetByKey s.served key).item)] ∧
      (∀ v, env.Marshal (env.GetByKey s.served key).item = .ok v →
        s'.puts = s.puts ++ [(pfx ++ "/" ++ key, v)]) := by
  obtain ⟨hev, hkey⟩ := hc s.served key herr hex
  refine ⟨_, cycle_put env pfx s key rest key hq herr hex hev hkey, rfl, ?_⟩
  intro v hv
  simp [marshalled, hv]

theorem store_key_is_prefix_slash_key_witness :
    ∃ s', cycle (podEnv "P") "/registry/events"
        (State.ofQueue ["default/pod-xyz", "default/b"]) = some s' ∧
      s'.puts = [("/registry/events/default/pod-xyz", "P")] ∧
      (∀ v, (podEnv "P").Marshal
          ((podEnv "P").GetByKey 0 "default/pod-xyz").item = .ok v →
        s'.puts = [("/registry/events" ++ "/" ++ "default/pod-xyz", v)]) :=
  store_key_is_prefix_slash_key (podEnv "P") "/registry/events"
    (State.ofQueue ["default/pod-xyz", "default/b"]) "default/pod-xyz" ["default/b"]
    (podEnv_coherent "P") rfl rfl rfl

/-- C6 (the code at the failing input): the indexer resolves `default/a` to
an event that `Marshal` rejects.  The cycle nevertheless issues a `Put`, with
the empty string as value, and the only log line is the success marker: the
serialization error is neither logged nor a reason to abandon the cycle. -/
theorem marshal_error_still_puts :
    unmarshalableEnv.Marshal (unmarshalableEnv.GetByKey 0 "default/a").item
      = .error "json: unsupported value" ∧
    cycle unmarshalableEnv "/registry/events" (State.ofQueue ["default/a"]) = some
      { Queue := [],
        puts := [("/registry/events/default/a", "")],
        logs := ["add event to etcd successd: default/a"],
        served := 1,
        panicked := false } := by
  exact ⟨rfl, rfl⟩


/-! ## Independence from the outcome of an earlier `Put` -/

theorem cycle_withPutOk {Obj : Type} (env : Env Obj) (pfx : String) (t : Nat) (s : State)
    (h : s.served ≠ t) : cycle (env.withPutOk t) pfx s = cycle env pfx s := by
  unfold cycle
  simp [Env.withPutOk, marshalled, h]

theorem cycle_served {Obj : Type} (env : Env Obj) (pfx : String) (s s' : State)
    (h : cycle env pfx s = some s') : s'.served = s.served + 1 := by
  cases hq : s.Queue with
  | nil => simp [cycle_nil env pfx s hq] at h
  | cons key rest =>
    obtain ⟨s'', h1, _, h3, _⟩ := cycle_cons env pfx s key rest hq
    rw [h1] at h
    cases h
    exact h3

theorem cycle_logs {Obj : Type} (env : Env Obj) (pfx : String) (s : State) (l : List String) :
    cycle env pfx { s with logs := l } =
      (cycle env pfx { s with logs := [] }).map (fun s' => { s' with logs := l ++ s'.logs }) := by
  unfold cycle
  cases s.Queue with
  | nil => rfl
  | cons key rest =>
    simp only
    split
    · simp
    · split
      · simp
      · split
        · simp
        · split <;> simp

theorem cycle_agree {Obj : Type} (env : Env Obj) (pfx : String) (t : Nat)
    (la lb : List String) (a b : State) (h : AgreeUpToLogs la lb a b) (ht : t < a.served) :
    (cycle env pfx a = none ∧ cycle (env.withPutOk t) pfx b = none) ∨
    ∃ a' b', cycle env pfx a = some a' ∧ cycle (env.withPutOk t) pfx b = some b' ∧
      AgreeUpToLogs la lb a' b' ∧ t < a'.served := by
  obtain ⟨hQ, hP, hS, hN, tail, hla, hlb⟩ := h
  have hb : cycle (env.withPutOk t) pfx b = cycle env pfx b :=
    cycle_withPutOk env pfx t b (by omega)
  have ea : a = { a with logs := la ++ tail } := by rw [← hla]
  have eb : b = { a with logs := lb ++ tail } := by
    rw [← hlb, hQ, hP, hS, hN]
  rw [hb, ea, eb, cycle_logs env pfx a (la ++ tail), cycle_logs env pfx a (lb ++ tail)]
  cases hc : cycle env pfx { a with logs := [] } with
  | none => exact Or.inl ⟨rfl, rfl⟩
  | some c =>
    right
    have hs := cycle_served env pfx _ c hc
    refine ⟨_, _, rfl, rfl, ⟨rfl, rfl, rfl, rfl, tail ++ c.logs, ?_, ?_⟩, ?_⟩
    · simp
    · simp
    · simp only at hs ⊢
      omega

theorem AddFunc_logs {Obj : Type} (env : Env Obj) (s : State) (obj : Obj) (l : List String) :
    AddFunc env { s with logs := l } obj =
      (AddFunc env { s with logs := [] } obj).map (fun s' => { s' with logs := l ++ s'.logs }) := by
  unfold AddFunc
  split
  · simp
  · split <;> simp

theorem AddFunc_served {Obj : Type} (env : Env Obj) (s s' : State) (obj : Obj)
    (h : AddFunc env s obj = some s') : s'.served = s.served := by
  unfold AddFunc at h
  split at h
  · cases h; rfl
  · split at h
    · cases h; rfl
    · cases h

theorem notify_agree {Obj : Type} (env : Env Obj) (t : Nat)
    (la lb : List String) (a b : State) (n : Notification Obj)
    (h : AgreeUpToLogs la lb a b) :
    ((handlers env).notify a n = none ∧ (handlers (env.withPutOk t)).notify b n = none) ∨
    ∃ a' b', (handlers env).notify a n = some a' ∧
      (handlers (env.withPutOk t)).notify b n = some b' ∧
      AgreeUpToLogs la lb a' b' ∧ a'.served = a.served := by
  cases n with
  | add obj =>
    obtain ⟨hQ, hP, hS, hN, tail, hla, hlb⟩ := h
    have hb : (handlers (env.withPutOk t)).notify b (.add obj) = AddFunc env b obj := rfl
    have ha : (handlers env).notify a (.add obj) = AddFunc env a obj := rfl
    have ea : a = { a with logs := la ++ tail } := by rw [← hla]
    have eb : b = { a with logs := lb ++ tail } := by
      rw [← hlb, hQ, hP, hS, hN]
    rw [ha, hb, ea, eb, AddFunc_logs env a obj (la ++ tail), AddFunc_logs env a obj (lb ++ tail)]
    cases hc : AddFunc env { a with logs := [] } obj with
    | none => exact Or.inl ⟨rfl, rfl⟩
    | some c =>
      right
      have hs := AddFunc_served env _ c obj hc
      refine ⟨_, _, rfl, rfl, ⟨rfl, rfl, rfl, rfl, tail ++ c.logs, ?_, ?_⟩, ?_⟩
      · simp
      · simp
      · simpa using hs
  | update o n =>
    right
    exact ⟨_, _, rfl, rfl, h, rfl⟩
  | delete obj =>
    right
    exact ⟨_, _, rfl, rfl, h, rfl⟩

theorem exec_agree {Obj : Type} (env : Env Obj) (pfx : String) (t : Nat)
    (la lb : List String) (sched : List (Action Obj)) :
    ∀ a b : State, AgreeUpToLogs la lb a b → t < a.served →
      AgreeUpToLogs la lb (exec env pfx sched a) (exec (env.withPutOk t) pfx sched b) := by
  induction sched with
  | nil => intro a b h _; exact h
  | cons x xs ih =>
    intro a b h ht
    have hN : a.panicked = b.panicked := h.2.2.2.1
    unfold exec
    rw [← hN]
    cases hp : a.panicked with
    | true => simpa using h
    | false =>
      simp only [Bool.false_eq_true, if_false]
      cases x with
      | work =>
        rcases cycle_agree env pfx t la lb a b h ht with ⟨h1, h2⟩ | ⟨a', b', h1, h2, h3, h4⟩
        · simp only [step, h1, h2]
          exact ih a b h ht
        · simp only [step, h1, h2]
          exact ih a' b' h3 h4
      | notify n =>
        rcases notify_agree env t la lb a b n h with ⟨h1, h2⟩ | ⟨a', b', h1, h2, h3, h4⟩
        · simp only [step, h1, h2]
          exact ih a b h ht
        · simp only [step, h1, h2]
          exact ih a' b' h3 (by omega)

/-- C4: when the `Put` of a cycle returns the error `e`, the cycle completes
having issued exactly that one `Put` and logged `e`, with the key gone from
the queue and the worker still running.  Compared with the run in which this
`Put` succeeds and the collaborators answer alike otherwise, every later run
of the program, along any schedule of notifications and worker cycles, has the
same queue, the same calls of `Put` and the same log lines after this cycle's
one line. -/
theorem put_error_no_retry_isolated {Obj : Type} (env : Env Obj) (pfx : String)
    (s : State) (key : String) (rest : List String) (eventKey e : String)
    (hq : s.Queue = key :: rest)
    (herr : (env.GetByKey s.served key).err = none)
    (hex : (env.GetByKey s.served key).exsit = true)
    (hev : env.isEvent (env.GetByKey s.served key).item = true)
    (hkey : env.MetaNamespaceKeyFunc (env.GetByKey s.served key).item = .ok eventKey)
    (hput : env.Put s.served (pfx ++ "/" ++ eventKey)
      (marshalled env (env.GetByKey s.served key).item) = some e) :
    ∃ s' s'', cycle env pfx s = some s' ∧
      s'.puts = s.puts ++
        [(pfx ++ "/" ++ eventKey, marshalled env (env.GetByKey s.served key).item)] ∧
      s'.logs = s.logs ++ [e] ∧ s'.Queue = rest ∧ s'.panicked = s.panicked ∧
      cycle (env.withPutOk s.served) pfx s = some s'' ∧
      s''.logs = s.logs ++ ["add event to etcd successd: " ++ eventKey] ∧
      ∀ sched : List (Action Obj),
        AgreeUpToLogs s'.logs s''.logs (exec env pfx sched s')
          (exec (env.withPutOk s.served) pfx sched s'') := by
  have h1 := cycle_put env pfx s key rest eventKey hq herr hex hev hkey
  have h2 := cycle_put (env.withPutOk s.served) pfx s key rest eventKey hq herr hex hev hkey
  have hput' : (env.withPutOk s.served).Put s.served (pfx ++ "/" ++ eventKey)
      (marshalled (env.withPutOk s.served)
        ((env.withPutOk s.served).GetByKey s.served key).item) = none := by
    simp [Env.withPutOk]
  rw [hput'] at h2
  rw [hput] at h1
  refine ⟨_, _, h1, rfl, rfl, rfl, rfl, h2, rfl, ?_⟩
  intro sched
  apply exec_agree
  · exact ⟨rfl, rfl, rfl, rfl, [], by simp, by simp⟩
  · simp

theorem put_error_no_retry_isolated_witness :
    ∃ s' s'', cycle putErrEnv "/registry/events"
        (State.ofQueue ["default/pod-xyz", "default/pod-xyz"]) = some s' ∧
      s'.puts = [("/registry/events/default/pod-xyz", "P")] ∧
      s'.logs = ["etcdserver: request timed out"] ∧ s'.Queue = ["default/pod-xyz"] ∧
      s'.panicked = false ∧
      cycle (putErrEnv.withPutOk 0) "/registry/events"
        (State.ofQueue ["default/pod-xyz", "default/pod-xyz"]) = some s'' ∧
      s''.logs = ["add event to etcd successd: default/pod-xyz"] ∧
      ∀ sched : List (Action Event),
        AgreeUpToLogs s'.logs s''.logs (exec putErrEnv "/registry/events" sched s')
          (exec (putErrEnv.withPutOk 0) "/registry/events" sched s'') :=
  put_error_no_retry_isolated putErrEnv "/registry/events"
    (State.ofQueue ["default/pod-xyz", "default/pod-xyz"]) "default/pod-xyz"
    ["default/pod-xyz"] "default/pod-xyz" "etcdserver: request timed out"
    rfl rfl rfl rfl rfl rfl

/-! ## The bounded queue -/

theorem AddFunc_length {Obj : Type} (env : Env Obj) (s s' : State) (obj : Obj)
    (hb : s.Queue.length ≤ queueCap) (h : AddFunc env s obj = some s') :
    s'.Queue.length ≤ queueCap := by
  unfold AddFunc at h
  split at h
  · cases h; exact hb
  · split at h
    · cases h
      simp only [List.length_append, List.length_singleton]
      omega
    · cases h

theorem notify_length {Obj : Type} (env : Env Obj) (s s' : State) (n : Notification Obj)
    (hb : s.Queue.length ≤ queueCap) (h : (handlers env).notify s n = some s') :
    s'.Queue.length ≤ queueCap := by
  cases n with
  | add obj => exact AddFunc_length env s s' obj hb h
  | update o n => cases h; exact hb
  | delete obj => cases h; exact hb

theorem cycle_length {Obj : Type} (env : Env Obj) (pfx : String) (s s' : State)
    (h : cycle env pfx s = some s') : s'.Queue.length + 1 = s.Queue.length := by
  cases hq : s.Queue with
  | nil => simp [cycle_nil env pfx s hq] at h
  | cons key rest =>
    obtain ⟨s'', h1, h2, _, _⟩ := cycle_cons env pfx s key rest hq
    rw [h1] at h
    cases h
    simp [h2]

theorem reachable_length {Obj : Type} (env : Env Obj) (pfx : String) (s : State)
    (hr : Reachable env pfx s) : s.Queue.length ≤ queueCap := by
  induction hr with
  | init => simp [State.init]
  | step s s' a _ _ hs ih =>
    cases a with
    | notify n => exact notify_length env s s' n ih hs
    | work =>
      have := cycle_length env pfx s s' hs
      omega

theorem notify_full {Obj : Type} (env : Env Obj) (s : State) (n : Notification Obj)
    (hfull : s.Queue.length = queueCap) :
    (handlers env).notify s n = none ∨
      ∃ s', (handlers env).notify s n = some s' ∧ s'.Queue = s.Queue := by
  cases n with
  | add obj =>
    show AddFunc env s obj = none ∨ ∃ s', AddFunc env s obj = some s' ∧ s'.Queue = s.Queue
    unfold AddFunc
    split
    · exact Or.inr ⟨_, rfl, rfl⟩
    · simp [hfull]
  | update o n => exact Or.inr ⟨_, rfl, rfl⟩
  | delete obj => exact Or.inr ⟨_, rfl, rfl⟩

theorem exec_notify_full {Obj : Type} (env : Env Obj) (pfx : String)
    (ns : List (Notification Obj)) :
    ∀ s : State, s.Queue.length = queueCap →
      (exec env pfx (ns.map Action.notify) s).Queue = s.Queue := by
  induction ns with
  | nil => intro s _; rfl
  | cons n ns ih =>
    intro s hfull
    simp only [List.map_cons, exec, step]
    split
    · rfl
    · rcases notify_full env s n hfull with h | ⟨s', h, hq⟩
      · simp only [h]
        exact ih s hfull
      · simp only [h]
        rw [ih s' (by rw [hq]; exact hfull), hq]

theorem reachable_replicate (P : String) (pfx : String) (n : Nat) (hn : n ≤ queueCap) :
    Reachable (podEnv P) pfx (State.ofQueue (List.replicate n "default/pod-xyz")) := by
  induction n with
  | zero => exact Reachable.init
  | succ n ih =>
    refine Reachable.step _ _ (Action.notify (.add ⟨"default", "pod-xyz", P⟩))
      (ih (by omega)) rfl ?_
    have hk : (podEnv P).MetaNamespaceKeyFunc ⟨"default", "pod-xyz", P⟩
        = .ok "default/pod-xyz" := rfl
    have hlt : n < queueCap := by omega
    simp only [step, ResourceEventHandlerFuncs.notify, handlers, AddFunc, hk, State.ofQueue,
      List.length_replicate, hlt, if_true, List.replicate_succ']

/-- C5: in every reachable state the queue holds at most 50,000 keys.  When it
holds exactly 50,000, the handler's send of a key does not complete; no
sequence of notifications changes the queue; and after any worker cycle the
same send completes, putting the key at the tail. -/
theorem queue_bounded_send_blocks {Obj : Type} (env : Env Obj) (pfx : String) (s : State)
    (hr : Reachable env pfx s) :
    s.Queue.length ≤ 50000 ∧
    ∀ (obj : Obj) (key : String), env.MetaNamespaceKeyFunc obj = .ok key →
      s.Queue.length = 50000 →
      (handlers env).notify s (.add obj) = none ∧
      (∀ ns : List (Notification Obj),
        (exec env pfx (ns.map Action.notify) s).Queue = s.Queue) ∧
      (∀ s', cycle env pfx s = some s' →
        (handlers env).notify s' (.add obj) = some { s' with Queue := s'.Queue ++ [key] }) := by
  refine ⟨reachable_length env pfx s hr, ?_⟩
  intro obj key hk hfull
  refine ⟨?_, ?_, ?_⟩
  · simp [ResourceEventHandlerFuncs.notify, handlers, AddFunc, hk, hfull, queueCap]
  · intro ns
    exact exec_notify_full env pfx ns s hfull
  · intro s' hc
    have hl := cycle_length env pfx s s' hc
    have hlt : s'.Queue.length < queueCap := by
      simp only [queueCap]
      omega
    simp [ResourceEventHandlerFuncs.notify, handlers, AddFunc, hk, hlt]

theorem queue_bounded_send_blocks_witness :
    (State.ofQueue (List.replicate 50000 "default/pod-xyz")).Queue.length ≤ 50000 ∧
    (State.ofQueue (List.replicate 50000 "default/pod-xyz")).Queue.length = 50000 ∧
    (handlers (podEnv "P")).notify (State.ofQueue (List.replicate 50000 "default/pod-xyz"))
      (.add ⟨"default", "pod-xyz", "P"⟩) = none ∧
    (∀ ns : List (Notification Event),
      (exec (podEnv "P") "/registry/events" (ns.map Action.notify)
        (State.ofQueue (List.replicate 50000 "default/pod-xyz"))).Queue =
      (State.ofQueue (List.replicate 50000 "default/pod-xyz")).Queue) ∧
    (∀ s', cycle (podEnv "P") "/registry/events"
        (State.ofQueue (List.replicate 50000 "default/pod-xyz")) = some s' →
      (handlers (podEnv "P")).notify s' (.add ⟨"default", "pod-xyz", "P"⟩) =
        some { s' with Queue := s'.Queue ++ ["default/pod-xyz"] }) :=
  ⟨(queue_bounded_send_blocks (podEnv "P") "/registry/events"
      (State.ofQueue (List.replicate 50000 "default/pod-xyz"))
      (reachable_replicate "P" "/registry/events" 50000 (by simp [queueCap]))).1,
    List.length_replicate 50000 "default/pod-xyz",
    (queue_bounded_send_blocks (podEnv "P") "/registry/events"
      (State.ofQueue (List.replicate 50000 "default/pod-xyz"))
      (reachable_replicate "P" "/registry/events" 50000 (by simp [queueCap]))).2
      ⟨"default", "pod-xyz", "P"⟩ "default/pod-xyz" rfl
      (List.length_replicate 50000 "default/pod-xyz")⟩

/-! ## Notifications -/

/-- C8 (as stated, refuted): the claim has every kind of notification enqueue
the object's key.  An update and a delete notification for the event
`default/pod-xyz`, whose key can be derived, both leave the state as it was:
nothing is enqueued. -/
theorem update_delete_counterexample :
    Event.key ⟨"default", "pod-xyz", "new"⟩ = .ok "default/pod-xyz" ∧
    (handlers emptyEnv).notify State.init
      (.update ⟨"default", "pod-xyz", "old"⟩ ⟨"default", "pod-xyz", "new"⟩) = some State.init ∧
    (handlers emptyEnv).notify State.init (.delete ⟨"default", "pod-xyz", "new"⟩)
      = some State.init ∧
    State.init.Queue = [] := by
  exact ⟨rfl, rfl, rfl, rfl⟩

/-- C8 (amended): for an object whose key can be derived, an add notification
arriving while the queue holds fewer than 50,000 keys enqueues exactly that
key once at the tail of the queue and changes nothing else; update and delete
notifications for the object change nothing, so enqueue nothing. -/
theorem add_enqueues_key_once {Obj : Type} (env : Env Obj) (s : State) (obj : Obj)
    (key : String) (hkey : env.MetaNamespaceKeyFunc obj = .ok key)
    (hroom : s.Queue.length < 50000) :
    (handlers env).notify s (.add obj) = some { s with Queue := s.Queue ++ [key] } ∧
    (∀ old : Obj, (handlers env).notify s (.update old obj) = some s) ∧
    (handlers env).notify s (.delete obj) = some s := by
  refine ⟨?_, fun _ => rfl, rfl⟩
  have hlt : s.Queue.length < queueCap := hroom
  simp [ResourceEventHandlerFuncs.notify, handlers, AddFunc, hkey, hlt]

theorem add_enqueues_key_once_witness :
    (handlers emptyEnv).notify (State.ofQueue ["default/a"])
        (.add ⟨"default", "pod-xyz", "m"⟩) =
      some { State.ofQueue ["default/a"] with
        Queue := (State.ofQueue ["default/a"]).Queue ++ ["default/pod-xyz"] } ∧
    (∀ old : Event, (handlers emptyEnv).notify (State.ofQueue ["default/a"])
        (.update old ⟨"default", "pod-xyz", "m"⟩) = some (State.ofQueue ["default/a"])) ∧
    (handlers emptyEnv).notify (State.ofQueue ["default/a"])
        (.delete ⟨"default", "pod-xyz", "m"⟩) = some (State.ofQueue ["default/a"]) :=
  add_enqueues_key_once emptyEnv (State.ofQueue ["default/a"]) ⟨"default", "pod-xyz", "m"⟩
    "default/pod-xyz" rfl (by decide)

/-! ## Start-up -/

theorem processEventsFrom_eq (w : Int) (n : Nat) :
    ∀ i : Int, (w - i).toNat = n →
      processEventsFrom w i = (List.range n).map (fun j : Nat => i + (j : Int)) := by
  induction n with
  | zero =>
    intro i h
    rw [processEventsFrom]
    have : ¬ i < w := by omega
    simp [this]
  | succ n ih =>
    intro i h
    rw [processEventsFrom]
    have hlt : i < w := by omega
    rw [if_pos hlt, ih (i + 1) (by omega), List.range_succ_eq_map]
    simp only [List.map_cons, List.map_map, Nat.cast_zero, add_zero, List.cons.injEq, true_and]
    apply List.map_congr_left
    intro j _
    simp only [Function.comp_apply, Nat.cast_succ]
    omega

/-- C10 (as stated, refuted): with the flag at -3 the configured worker count
is -3, and `processEvents` starts no worker loop at all: the number of loops
started is 0, not the configured count. -/
theorem negative_worknum_counterexample :
    threadWorkNum (-3) = -3 ∧ processEvents (threadWorkNum (-3)) = [] ∧
    ((processEvents (threadWorkNum (-3))).length : Int) ≠ threadWorkNum (-3) := by
  have h : processEvents (threadWorkNum (-3)) = [] := by
    simp [processEvents, threadWorkNum, processEventsFrom]
  refine ⟨by decide, h, ?_⟩
  rw [h]
  decide

/-- C10 (amended): the configured worker count is 4 when the flag is 0 and
the flag's value otherwise, negative values included, and `processEvents`
starts the worker loops with ids 0, 1, ... below that count, in this order:
as many loops as the count when it is positive and none when it is negative.
The prefix is `/registry/events` when the flag is empty and the flag's value
otherwise. -/
theorem processEvents_ids (worknum : Int) (flagValue : String) :
    threadWorkNum 0 = 4 ∧ (worknum = 0 ∨ threadWorkNum worknum = worknum) ∧
    processEvents (threadWorkNum worknum) =
      (List.range (threadWorkNum worknum).toNat).map (fun j : Nat => (j : Int)) ∧
    (processEvents (threadWorkNum worknum)).length = (threadWorkNum worknum).toNat ∧
    etcdKeyPrefix "" = "/registry/events" ∧
    (flagValue = "" ∨ etcdKeyPrefix flagValue = flagValue) := by
  have h := processEventsFrom_eq (threadWorkNum worknum) (threadWorkNum worknum).toNat 0
    (by simp)
  have h' : processEvents (threadWorkNum worknum) =
      (List.range (threadWorkNum worknum).toNat).map (fun j : Nat => (j : Int)) := by
    rw [processEvents, h]
    simp
  refine ⟨by decide, ?_, h', ?_, by decide, ?_⟩
  · by_cases h0 : worknum = 0
    · exact Or.inl h0
    · exact Or.inr (by simp [threadWorkNum, h0])
  · rw [h']
    simp
  · by_cases h0 : flagValue = ""
    · exact Or.inl h0
    · exact Or.inr (by simp [etcdKeyPrefix, h0])

/-! ## A single worker draining the queue -/

theorem runWork_drains {Obj : Type} (env : Env Obj) (pfx : String) (hc : env.Coherent)
    (ks : List String) :
    ∀ s : State, s.Queue = ks → s.panicked = false →
      (runWork env pfx ks.length s).Queue = [] ∧
      (runWork env pfx ks.length s).puts = s.puts ++ claimedPuts env pfx s.served ks := by
  induction ks with
  | nil =>
    intro s hq _
    simp [runWork, claimedPuts, hq]
  | cons key rest ih =>
    intro s hq hp
    by_cases hfail : (env.GetByKey s.served key).err ≠ none ∨
        (env.GetByKey s.served key).exsit = false
    · have hcy := cycle_skip env pfx s key rest hq hfail
      have hg : ((env.GetByKey s.served key).err.isSome ||
          !(env.GetByKey s.served key).exsit) = true := by
        rcases hfail with h | h
        · cases hx : (env.GetByKey s.served key).err with
          | none => exact absurd hx h
          | some e => simp
        · simp [h]
      rw [List.length_cons, runWork_succ env pfx rest.length s _ hp hcy]
      simp only [claimedPuts, hg, if_true]
      exact ih _ rfl hp
    · have herr : (env.GetByKey s.served key).err = none := by
        by_contra h
        exact hfail (Or.inl h)
      have hex : (env.GetByKey s.served key).exsit = true := by
        cases hx : (env.GetByKey s.served key).exsit with
        | true => rfl
        | false => exact absurd (Or.inr hx) hfail
      obtain ⟨hev, hkey⟩ := hc s.served key herr hex
      obtain ⟨s', hcy, hQ, hS, hP, hN⟩ : ∃ s', cycle env pfx s = some s' ∧ s'.Queue = rest ∧
          s'.served = s.served + 1 ∧
          s'.puts = s.puts ++
            [(pfx ++ "/" ++ key, marshalled env (env.GetByKey s.served key).item)] ∧
          s'.panicked = s.panicked :=
        ⟨_, cycle_put env pfx s key rest key hq herr hex hev hkey, rfl, rfl, rfl, rfl⟩
      rw [List.length_cons, runWork_succ env pfx rest.length s s' hp hcy]
      have h := ih s' hQ (by rw [hN]; exact hp)
      refine ⟨h.1, ?_⟩
      rw [h.2, hS, hP]
      simp [claimedPuts, herr, hex]

/-- C3: with the informer's cache as indexer, a single worker that runs as
many cycles as the queue holds keys empties the queue and issues, in queue
order, exactly the calls `Put(pfx/k, encode(v))` for the keys `k` whose lookup
at their dequeue time returned a value `v`, and nothing for the other keys.
In the concrete scenario (prefix `/registry/events`, `default/pod-xyz` queued
twice, payload `P` found by the first lookup and nothing by the second)
exactly one call `Put("/registry/events/default/pod-xyz", P)` is observed. -/
theorem single_worker_puts {Obj : Type} (env : Env Obj) (pfx : String) (s : State)
    (hp : s.panicked = false) (hc : env.Coherent) :
    ((runWork env pfx s.Queue.length s).Queue = [] ∧
      (runWork env pfx s.Queue.length s).puts
        = s.puts ++ claimedPuts env pfx s.served s.Queue) ∧
    ∀ P : String,
      (runWork (scenarioEnv P) "/registry/events" 2
        (State.ofQueue ["default/pod-xyz", "default/pod-xyz"])).puts
        = [("/registry/events/default/pod-xyz", P)] := by
  refine ⟨runWork_drains env pfx hc s.Queue s rfl hp, ?_⟩
  intro P
  rfl

theorem single_worker_puts_witness :
    ((runWork (scenarioEnv "P") "/registry/events" 2
        (State.ofQueue ["default/pod-xyz", "default/pod-xyz"])).Queue = [] ∧
      (runWork (scenarioEnv "P") "/registry/events" 2
        (State.ofQueue ["default/pod-xyz", "default/pod-xyz"])).puts
        = [("/registry/events/default/pod-xyz", "P")]) ∧
    ∀ P : String,
      (runWork (scenarioEnv P) "/registry/events" 2
        (State.ofQueue ["default/pod-xyz", "default/pod-xyz"])).puts
        = [("/registry/events/default/pod-xyz", P)] :=
  single_worker_puts (scenarioEnv "P") "/registry/events"
    (State.ofQueue ["default/pod-xyz", "default/pod-xyz"]) rfl (scenarioEnv_coherent "P")

end EventController
